import Mathlib

/-!
# Verification of the market-events generation pipeline

A shallow embedding of the core of the `major-news` repository:

* the response normalizer `AIService.parseAIResponse` (regex span extraction,
  JSON parsing, per-element validation, type normalization),
* the prompt builder `AIService.buildMarketEventsPrompt`,
* the week-start default `AIService.getCurrentWeekStart`,
* the deduplicating ingestor `MarketEventsService.createEvents` with its
  store existence check `MarketEventsService.findExistingEvent`.

Machine strings are Lean `String`s; the JavaScript runtime pieces the code
leans on (`String.prototype.match` with the regex `\[[\s\S]*\]`, `JSON.parse`,
array/object truthiness) are modelled explicitly below, faithful to their
documented semantics on the inputs the pipeline can see.
-/

/-- JSON values as produced by `JSON.parse`.  Numbers keep their source lexeme
(no claim depends on numeric semantics beyond zero-ness for truthiness). -/
inductive Json where
  | null : Json
  | bool (b : Bool) : Json
  | num (lit : String) : Json
  | str (s : String) : Json
  | arr (elems : List Json) : Json
  | obj (fields : List (String × Json)) : Json
deriving Repr

mutual

/-- Structural equality of JSON values (JS `===` on the primitives the
store comparison can meet). -/
def Json.beq : Json → Json → Bool
  | Json.null, Json.null => true
  | Json.bool a, Json.bool b => a == b
  | Json.num a, Json.num b => a == b
  | Json.str a, Json.str b => a == b
  | Json.arr a, Json.arr b => Json.beqList a b
  | Json.obj a, Json.obj b => Json.beqFields a b
  | _, _ => false

def Json.beqList : List Json → List Json → Bool
  | [], [] => true
  | x :: xs, y :: ys => Json.beq x y && Json.beqList xs ys
  | _, _ => false

def Json.beqFields : List (String × Json) → List (String × Json) → Bool
  | [], [] => true
  | (k, v) :: xs, (l, w) :: ys => k == l && Json.beq v w && Json.beqFields xs ys
  | _, _ => false

end

/-! ## A model of JavaScript `JSON.parse` -/

/-- JSON insignificant whitespace characters. -/
def isJsonWs (c : Char) : Bool := c = ' ' || c = '\t' || c = '\n' || c = '\r'

def skipWs : List Char → List Char
  | [] => []
  | c :: rest => if isJsonWs c then skipWs rest else c :: rest

def isHexDigit (c : Char) : Bool := c.isDigit || ('a' ≤ c && c ≤ 'f') || ('A' ≤ c && c ≤ 'F')

def hexVal (c : Char) : Nat :=
  if c.isDigit then c.toNat - '0'.toNat
  else if 'a' ≤ c && c ≤ 'f' then c.toNat - 'a'.toNat + 10
  else c.toNat - 'A'.toNat + 10

/-- Body of a JSON string literal, after the opening quote; returns the decoded
characters together with the input remaining after the closing quote. -/
def parseStringChars : List Char → Option (List Char × List Char)
  | [] => none
  | '"' :: rest => some ([], rest)
  | '\\' :: '"' :: rest => (parseStringChars rest).map (fun p => ('"' :: p.1, p.2))
  | '\\' :: '\\' :: rest => (parseStringChars rest).map (fun p => ('\\' :: p.1, p.2))
  | '\\' :: '/' :: rest => (parseStringChars rest).map (fun p => ('/' :: p.1, p.2))
  | '\\' :: 'b' :: rest => (parseStringChars rest).map (fun p => (Char.ofNat 8 :: p.1, p.2))
  | '\\' :: 'f' :: rest => (parseStringChars rest).map (fun p => (Char.ofNat 12 :: p.1, p.2))
  | '\\' :: 'n' :: rest => (parseStringChars rest).map (fun p => ('\n' :: p.1, p.2))
  | '\\' :: 'r' :: rest => (parseStringChars rest).map (fun p => ('\r' :: p.1, p.2))
  | '\\' :: 't' :: rest => (parseStringChars rest).map (fun p => ('\t' :: p.1, p.2))
  | '\\' :: 'u' :: a :: b :: c :: d :: rest =>
    if isHexDigit a && isHexDigit b && isHexDigit c && isHexDigit d then
      (parseStringChars rest).map (fun p =>
        (Char.ofNat (((hexVal a * 16 + hexVal b) * 16 + hexVal c) * 16 + hexVal d) :: p.1, p.2))
    else none
  | '\\' :: _ => none
  | c :: rest =>
    if c.toNat < 32 then none
    else (parseStringChars rest).map (fun p => (c :: p.1, p.2))

def parseStringBody (cs : List Char) : Option (String × List Char) :=
  (parseStringChars cs).map (fun p => (String.mk p.1, p.2))

def digitSpan (cs : List Char) : List Char × List Char :=
  (cs.takeWhile Char.isDigit, cs.dropWhile Char.isDigit)

/-- Digits of a JSON number exponent, after `e`/`E`; `lex` is the lexeme so far. -/
def parseExpDigits (lex pre : List Char) (cs : List Char) : Option (Json × List Char) :=
  let (sgn, cs1) := match cs with
    | '+' :: r => (['+'], r)
    | '-' :: r => (['-'], r)
    | _ => (([] : List Char), cs)
  let (ds, rest) := digitSpan cs1
  if ds = [] then none
  else some (Json.num (String.mk (lex ++ pre ++ sgn ++ ds)), rest)

/-- Optional exponent part of a JSON number. -/
def parseExpPart (lex : List Char) (cs : List Char) : Option (Json × List Char) :=
  match cs with
  | 'e' :: r => parseExpDigits lex ['e'] r
  | 'E' :: r => parseExpDigits lex ['E'] r
  | _ => some (Json.num (String.mk lex), cs)

/-- Optional fraction then exponent of a JSON number. -/
def parseFracPart (lex : List Char) (cs : List Char) : Option (Json × List Char) :=
  match cs with
  | '.' :: r =>
    let (ds, rest) := digitSpan r
    if ds = [] then none else parseExpPart (lex ++ '.' :: ds) rest
  | _ => parseExpPart lex cs

/-- A JSON number starting at `cs` (first char is `-` or a digit). -/
def parseNumberFrom (cs : List Char) : Option (Json × List Char) :=
  let (sgn, cs1) := match cs with
    | '-' :: r => (['-'], r)
    | _ => (([] : List Char), cs)
  match cs1 with
  | '0' :: r => parseFracPart (sgn ++ ['0']) r
  | c :: _ =>
    if c.isDigit then
      let (ds, rest) := digitSpan cs1
      parseFracPart (sgn ++ ds) rest
    else none
  | [] => none

mutual

def parseValue : Nat → List Char → Option (Json × List Char)
  | 0, _ => none
  | Nat.succ fuel, cs =>
    match skipWs cs with
    | 'n' :: 'u' :: 'l' :: 'l' :: rest => some (Json.null, rest)
    | 't' :: 'r' :: 'u' :: 'e' :: rest => some (Json.bool true, rest)
    | 'f' :: 'a' :: 'l' :: 's' :: 'e' :: rest => some (Json.bool false, rest)
    | '"' :: rest =>
      match parseStringBody rest with
      | some (s, r) => some (Json.str s, r)
      | none => none
    | '[' :: rest => parseArrayBody fuel rest
    | '{' :: rest => parseObjBody fuel rest
    | c :: rest =>
      if c = '-' || c.isDigit then parseNumberFrom (c :: rest) else none
    | [] => none

def parseArrayBody : Nat → List Char → Option (Json × List Char)
  | 0, _ => none
  | Nat.succ fuel, cs =>
    match skipWs cs with
    | ']' :: rest => some (Json.arr [], rest)
    | cs2 =>
      match parseValue fuel cs2 with
      | some (v, r) => parseArrayTail fuel [v] r
      | none => none

def parseArrayTail : Nat → List Json → List Char → Option (Json × List Char)
  | 0, _, _ => none
  | Nat.succ fuel, acc, cs =>
    match skipWs cs with
    | ',' :: rest =>
      match parseValue fuel rest with
      | some (v, r) => parseArrayTail fuel (acc ++ [v]) r
      | none => none
    | ']' :: rest => some (Json.arr acc, rest)
    | _ => none

def parseObjBody : Nat → List Char → Option (Json × List Char)
  | 0, _ => none
  | Nat.succ fuel, cs =>
    match skipWs cs with
    | '}' :: rest => some (Json.obj [], rest)
    | cs2 =>
      match parseMember fuel cs2 with
      | some (kv, r) => parseObjTail fuel [kv] r
      | none => none

def parseObjTail : Nat → List (String × Json) → List Char → Option (Json × List Char)
  | 0, _, _ => none
  | Nat.succ fuel, acc, cs =>
    match skipWs cs with
    | ',' :: rest =>
      match parseMember fuel rest with
      | some (kv, r) => parseObjTail fuel (acc ++ [kv]) r
      | none => none
    | '}' :: rest => some (Json.obj acc, rest)
    | _ => none

def parseMember : Nat → List Char → Option ((String × Json) × List Char)
  | 0, _ => none
  | Nat.succ fuel, cs =>
    match skipWs cs with
    | '"' :: rest =>
      match parseStringBody rest with
      | some (k, r) =>
        match skipWs r with
        | ':' :: r2 =>
          match parseValue fuel r2 with
          | some (v, r3) => some ((k, v), r3)
          | none => none
        | _ => none
      | none => none
    | _ => none

end

/-- Model of JavaScript `JSON.parse`: the whole string must be one JSON value
(surrounded by optional whitespace).  The fuel is generous: every recursive
descent first consumes at least one input character. -/
def parseJson (s : String) : Option Json :=
  match parseValue (2 * s.length + 8) s.data with
  | some (v, rest) => if skipWs rest = [] then some v else none
  | none => none

/-! ## The regex span extraction of `parseAIResponse`

`response.match(/\[[\s\S]*\])/` returns the substring that starts at the first
`[` that has some `]` after it and ends at the last `]` of the string
(leftmost match, greedy `*`), or `null` when no `[` is followed by a `]`. -/

/-- The prefix of `cs` up to and including its last `]`, if any. -/
def takeThroughLastClose : List Char → Option (List Char)
  | [] => none
  | c :: rest =>
    match takeThroughLastClose rest with
    | some tail => some (c :: tail)
    | none => if c = ']' then some [']'] else none

/-- The match of `/\[[\s\S]*\]/` against `cs`. -/
def extractJsonSpan : List Char → Option (List Char)
  | [] => none
  | c :: rest =>
    if c = '[' then
      match takeThroughLastClose rest with
      | some inner => some ('[' :: inner)
      | none => none
    else extractJsonSpan rest

/-- Decides whether the text has a `[` followed (later) by a `]`. -/
def hasSpanB : List Char → Bool
  | [] => false
  | c :: rest => (c == '[' && rest.contains ']') || hasSpanB rest

/-! ## The response normalizer (`AIService.parseAIResponse`) -/

/-- The value a JS object property read can produce here: a string (an own
property of the `typeMappings` literal, or a kept/fallback value), or a
truthy member inherited from `Object.prototype` — the read
`typeMappings[event.type]` walks the prototype chain, so keys such as
`"toString"` or `"constructor"` find the inherited function (and
`"__proto__"` the prototype object itself), which the code then assigns as
the normalized type. -/
inductive JsType where
  | str (s : String)
  | protoMember (key : String)
deriving DecidableEq, Repr

/-- The keys an empty-prototype-chain miss still finds on `Object.prototype`
(all of them truthy: eleven functions and the `__proto__` accessor). -/
def objectProtoKeys : List String :=
  ["constructor", "hasOwnProperty", "isPrototypeOf", "propertyIsEnumerable",
   "toLocaleString", "toString", "valueOf", "__defineGetter__",
   "__defineSetter__", "__lookupGetter__", "__lookupSetter__", "__proto__"]

mutual

/-- `Array.prototype.join(",")` element coercion: `null` (and `undefined`)
become the empty string, everything else its JS string coercion. -/
def jsonElemStr : Json → String
  | Json.null => ""
  | Json.str s => s
  | Json.num lit => lit
  | Json.bool true => "true"
  | Json.bool false => "false"
  | Json.arr xs => jsonArrJoin xs
  | Json.obj _ => "[object Object]"

def jsonArrJoin : List Json → String
  | [] => ""
  | [x] => jsonElemStr x
  | x :: xs => jsonElemStr x ++ "," ++ jsonArrJoin xs

end

/-- JS string coercion of a value used as a property key (`ToPropertyKey`).
A JSON number is rendered by its source lexeme; actual JS number formatting
can differ, but either way the result consists only of numeric characters
(digits, sign, dot, `e`), which no synonym key, prototype key or canonical
value contains, so every lookup outcome agrees. -/
def jsonToKey : Json → String
  | Json.str s => s
  | Json.num lit => lit
  | Json.bool true => "true"
  | Json.bool false => "false"
  | Json.null => "null"
  | Json.arr xs => jsonArrJoin xs
  | Json.obj _ => "[object Object]"

/-- Candidate market event, as staged by the normalizer (`CreateMarketEvent`).
`date`, `event` and `description` are carried exactly as parsed (the source
only checks them for truthiness); `significance` and `market_sentiment` are
strings by construction of the validation; `type` is whatever the type
normalization produced — a string, or an inherited `Object.prototype`
member. -/
structure CreateMarketEvent where
  date : Json
  event : Json
  type : JsType
  description : Json
  significance : String
  market_sentiment : String
  citations : Option (List String)

/-- JS object property read, `element[key]`: with duplicate keys the last
occurrence wins (as in `JSON.parse` object construction). -/
def jGet (fields : List (String × Json)) (key : String) : Option Json :=
  match fields with
  | [] => none
  | (k, v) :: rest =>
    match jGet rest key with
    | some w => some w
    | none => if k == key then some v else none

/-- Whether a JSON number lexeme denotes zero: every mantissa digit is `0`. -/
def jsNumIsZero (lit : String) : Bool :=
  ((lit.data.takeWhile (fun c => !(c = 'e' || c = 'E'))).filter Char.isDigit).all
    (fun c => c = '0')

/-- JavaScript truthiness of `element[key]` (`undefined`, `null`, `false`,
`0`, `""` are falsy). -/
def truthy : Option Json → Bool
  | none => false
  | some Json.null => false
  | some (Json.bool b) => b
  | some (Json.num lit) => !(jsNumIsZero lit)
  | some (Json.str s) => !(s == "")
  | some (Json.arr _) => true
  | some (Json.obj _) => true

def validSignificance : List String := ["High", "Medium", "Low"]

def validSentiment : List String := ["Bullish", "Bearish", "Neutral", "Mixed"]

def validTypes : List String :=
  ["Economic", "Fed", "Crypto", "Retail/Geopolitical", "Holiday", "Geopolitical", "Corporate"]

/-- The fixed synonym table `typeMappings` of `parseAIResponse`. -/
def typeMappings : List (String × String) :=
  [("US Economic Data", "Economic"),
   ("Economic Data", "Economic"),
   ("Federal Reserve", "Fed"),
   ("Fed Meeting", "Fed"),
   ("FOMC", "Fed"),
   ("Cryptocurrency", "Crypto"),
   ("Crypto Event", "Crypto"),
   ("Retail Sales", "Retail/Geopolitical"),
   ("Geopolitical Event", "Geopolitical"),
   ("Holiday", "Holiday"),
   ("Corporate Earnings", "Corporate"),
   ("Corporate Event", "Corporate")]

def assocLookup : List (String × String) → String → Option String
  | [], _ => none
  | (k, v) :: rest, key => if k = key then some v else assocLookup rest key

/-- The JS property read `typeMappings[key]` on the object literal: an own
property (one of the twelve entries) is found first; otherwise the read
walks the prototype chain and finds the inherited `Object.prototype`
members; `none` is `undefined`. -/
def typeMappingsGet (key : String) : Option JsType :=
  match assocLookup typeMappings key with
  | some v => some (JsType.str v)
  | none =>
    if objectProtoKeys.contains key then some (JsType.protoMember key) else none

/-- Normalization of the `type` field, following the source's
`if (typeMappings[event.type]) ... else if (!validTypes.includes(event.type))`:
every value `typeMappingsGet` can return is truthy (the twelve own values are
non-empty strings, the prototype members are functions/objects), so the first
branch fires exactly when the read is not `undefined` — including prototype
keys like `"toString"`, whose inherited member is then substituted as the
type.  On a miss, `includes` (strict equality) keeps an already-canonical
string and anything else falls back to `"Economic"`. -/
def normalizeType (ty : Json) : JsType :=
  match typeMappingsGet (jsonToKey ty) with
  | some v => v
  | none =>
    match ty with
    | Json.str t => if validTypes.contains t then JsType.str t else JsType.str "Economic"
    | _ => JsType.str "Economic"

/-- Per-element validation of `parseAIResponse`: skip unless all six fields
are present and truthy; skip unless `significance`/`marketSentiment` are
exactly one of the allowed strings; normalize `type`; attach the invocation
citations when non-empty. -/
def validateEvent (citations : List String) : Json → Option CreateMarketEvent
  | Json.obj fields =>
    if truthy (jGet fields "date") && truthy (jGet fields "event")
        && truthy (jGet fields "type") && truthy (jGet fields "description")
        && truthy (jGet fields "significance") && truthy (jGet fields "marketSentiment") then
      match jGet fields "significance", jGet fields "marketSentiment" with
      | some (Json.str sv), some (Json.str mv) =>
        if validSignificance.contains sv && validSentiment.contains mv then
          match jGet fields "date", jGet fields "event",
              jGet fields "type", jGet fields "description" with
          | some dv, some evv, some tv, some dsv =>
            some { date := dv, event := evv, type := normalizeType tv,
                   description := dsv, significance := sv, market_sentiment := mv,
                   citations := if citations.length > 0 then some citations else none }
          | _, _, _, _ => none
        else none
      | _, _ => none
    else none
  | _ => none

/-- The validation loop over the parsed array (order-preserving; a rejected
element is skipped, the rest keep being processed). -/
def validateEvents (elements : List Json) (citations : List String) : List CreateMarketEvent :=
  elements.filterMap (validateEvent citations)

inductive ParseErr where
  | noArrayFound
  | invalidJson
  | notAnArray
  | noValidEvents
deriving DecidableEq, Repr

/-- `AIService.parseAIResponse`: extract the `[...]` span, `JSON.parse` it,
require an array, validate each element, and fail when no element survives. -/
def parseAIResponse (response : String) (citations : List String) :
    Except ParseErr (List CreateMarketEvent) :=
  match extractJsonSpan response.data with
  | none => Except.error ParseErr.noArrayFound
  | some span =>
    match parseJson (String.mk span) with
    | none => Except.error ParseErr.invalidJson
    | some (Json.arr elements) =>
      let validEvents := validateEvents elements citations
      if validEvents.length = 0 then Except.error ParseErr.noValidEvents
      else Except.ok validEvents
    | some _ => Except.error ParseErr.notAnArray

/-- The extraction-plus-parse front half of `parseAIResponse`. -/
def extractParse (response : String) : Option Json :=
  match extractJsonSpan response.data with
  | some span => parseJson (String.mk span)
  | none => none

/-- The invariants every normalized candidate actually satisfies: exact enum
`significance` and `market_sentiment`, and a `type` that is either one of the
seven canonical strings or an inherited `Object.prototype` member (the
prototype-chain escape of the synonym-table read — the type is NOT always
canonical). -/
def eventInvariants (ce : CreateMarketEvent) : Prop :=
  ((∃ s, ce.type = JsType.str s ∧ s ∈ validTypes)
      ∨ (∃ k, ce.type = JsType.protoMember k ∧ k ∈ objectProtoKeys))
    ∧ ce.significance ∈ validSignificance
    ∧ ce.market_sentiment ∈ validSentiment

/-! ## The deduplicating ingestor (`MarketEventsService.createEvents`) -/

/-- Outcome of the store existence query
(`select.eq(event).eq(date).single()`): a row, no row (`PGRST116`), or any
other error. -/
inductive QueryResult where
  | found (rec : CreateMarketEvent)
  | notFound
  | err

/-- `MarketEventsService.findExistingEvent`: `PGRST116` (not found) yields
`null`; any other error is logged and also yields `null` (assume not found). -/
def findExistingEvent : QueryResult → Option CreateMarketEvent
  | QueryResult.found r => some r
  | QueryResult.notFound => none
  | QueryResult.err => none

/-- The classification loop of `createEvents`: each candidate is checked with
`findExistingEvent`; a hit increments `skippedCount`, a miss is pushed onto
`uniqueEvents`.  The query function is the store state at loop start — the
loop never consults the staged list. -/
def createEventsLoop (query : CreateMarketEvent → QueryResult) :
    List CreateMarketEvent → List CreateMarketEvent × Nat
  | [] => ([], 0)
  | e :: rest =>
    let acc := createEventsLoop query rest
    match findExistingEvent (query e) with
    | some _ => (acc.1, acc.2 + 1)
    | none => (e :: acc.1, acc.2)

/-- Semantic identity used for deduplication: equal `event` and equal `date`. -/
def matchesPair (row cand : CreateMarketEvent) : Bool :=
  Json.beq row.event cand.event && Json.beq row.date cand.date

/-- The store answering `findExistingEvent`'s query: `.single()` returns the
row when exactly one matches, `PGRST116` when none does, and errors when
several do. -/
def storeQuery (rows : List CreateMarketEvent) (cand : CreateMarketEvent) : QueryResult :=
  match rows.filter (fun r => matchesPair r cand) with
  | [] => QueryResult.notFound
  | [r] => QueryResult.found r
  | _ :: _ :: _ => QueryResult.err

structure IngestResult where
  created : List CreateMarketEvent
  skipped : Nat

/-- `MarketEventsService.createEvents` against a store holding `rows`:
classify every candidate against the pre-call store, then batch-insert the
staged ones.  Returns the result and the new store contents. -/
def createEvents (rows : List CreateMarketEvent) (eventsData : List CreateMarketEvent) :
    IngestResult × List CreateMarketEvent :=
  let acc := createEventsLoop (storeQuery rows) eventsData
  if acc.1.length = 0 then ({ created := [], skipped := acc.2 }, rows)
  else ({ created := acc.1, skipped := acc.2 }, rows ++ acc.1)

/-! ## The prompt builder (`AIService.buildMarketEventsPrompt`) -/

/-- A civil calendar date (what `buildMarketEventsPrompt` reads off its
`Date` argument). -/
structure CalDate where
  year : Nat
  month : Nat
  day : Nat
deriving DecidableEq, Repr

def isLeapYear (y : Nat) : Bool := (y % 4 == 0 && y % 100 != 0) || y % 400 == 0

def daysInMonth (y m : Nat) : Nat :=
  match m with
  | 2 => if isLeapYear y then 29 else 28
  | 4 => 30
  | 6 => 30
  | 9 => 30
  | 11 => 30
  | _ => 31

def validDate (d : CalDate) : Prop :=
  1 ≤ d.month ∧ d.month ≤ 12 ∧ 1 ≤ d.day ∧ d.day ≤ daysInMonth d.year d.month

/-- `weekEnd`: a copy of the target week start advanced six days via
`setDate(getDate() + 6)` (JS `Date` normalizes an overflowing day into the
following month, possibly the following year). -/
def weekEndOf (d : CalDate) : CalDate :=
  if d.day + 6 ≤ daysInMonth d.year d.month then { d with day := d.day + 6 }
  else if d.month = 12 then
    { year := d.year + 1, month := 1, day := d.day + 6 - daysInMonth d.year d.month }
  else
    { year := d.year, month := d.month + 1, day := d.day + 6 - daysInMonth d.year d.month }

/-- Cumulative days before month `m` in year `y` (for day counting). -/
def daysBeforeMonth (y m : Nat) : Nat :=
  let leapAdj := if isLeapYear y then 1 else 0
  match m with
  | 1 => 0
  | 2 => 31
  | 3 => 59 + leapAdj
  | 4 => 90 + leapAdj
  | 5 => 120 + leapAdj
  | 6 => 151 + leapAdj
  | 7 => 181 + leapAdj
  | 8 => 212 + leapAdj
  | 9 => 243 + leapAdj
  | 10 => 273 + leapAdj
  | 11 => 304 + leapAdj
  | 12 => 334 + leapAdj
  | _ => 0

def daysInYear (y : Nat) : Nat := if isLeapYear y then 366 else 365

def daysBeforeYear : Nat → Nat
  | 0 => 0
  | Nat.succ y => daysBeforeYear y + daysInYear y

/-- Absolute day number of a date (a rata-die count). -/
def rataDie (d : CalDate) : Nat :=
  daysBeforeYear d.year + daysBeforeMonth d.year d.month + d.day

def monthName : Nat → String
  | 1 => "January"
  | 2 => "February"
  | 3 => "March"
  | 4 => "April"
  | 5 => "May"
  | 6 => "June"
  | 7 => "July"
  | 8 => "August"
  | 9 => "September"
  | 10 => "October"
  | 11 => "November"
  | 12 => "December"
  | _ => ""

/-- `toLocaleDateString("en-US", { month: "long", day: "numeric", year: "numeric" })`. -/
def formatDate (d : CalDate) : String :=
  monthName d.month ++ " " ++ toString d.day ++ ", " ++ toString d.year

/-- The prompt template before the interpolated date range. -/
def promptPart1 : String :=
  "You are a financial analyst researching CURRENT market-moving events. Use web_search and x_search tools to find real-time information about significant events happening THIS WEEK ("

/-- The prompt template after the interpolated date range. -/
def promptPart2 : String :=
  ").\n\nRESEARCH INSTRUCTIONS:\n1. Use web_search to find official economic calendars, central bank announcements, corporate earnings, and geopolitical developments\n2. Use x_search to check recent Twitter discussions about market-moving events, breaking news, and analyst commentary\n3. Focus on events that will actually occur this week - not hypothetical future events\n4. Look for specific dates, times, and expected outcomes\n\nEVENT TYPES TO RESEARCH:\n- Economic data releases (GDP, inflation, employment, PMI, etc.)\n- Central bank meetings, rate decisions, and press conferences\n- Corporate earnings reports and guidance\n- Geopolitical developments, trade talks, conflicts\n- Regulatory announcements and policy changes\n- Major conferences, summits, or technological releases\n- Market holidays and closures\n\nFor each event you find through research, provide:\n1. Date (exact date like \"December 1 2025\" or date range like \"December 1-3 2025\")\n2. Event name (official name)\n3. Type (descriptive category based on your research)\n4. Description & Potential Impact (what it is, when it happens, expected outcomes, market impact)\n5. Significance (High, Medium, Low based on historical market impact)\n6. Market Sentiment (Bullish, Bearish, Neutral, Mixed based on expected outcome)\n\nFormat your response as a valid JSON array. Use the tools to ensure accuracy and timeliness.\n\nExample format:\n[\n  \x7b\n    \"date\": \"December 1 2025\",\n    \"event\": \"US ISM Manufacturing PMI\",\n    \"type\": \"Economic\",\n    \"description\": \"Manufacturing activity indicator released at 10:00 AM ET. Expected 48.5 vs previous 47.8. Key gauge of US manufacturing health.\",\n    \"significance\": \"High\",\n    \"marketSentiment\": \"Mixed\"\n  \x7d\n]\n\nValid event types: \"Economic\", \"Fed\", \"Crypto\", \"Retail/Geopolitical\", \"Holiday\", \"Geopolitical\", \"Corporate\"\n\nGenerate 10-15 events based on your research findings. Focus on events with confirmed dates this week."

/-- `AIService.buildMarketEventsPrompt`. -/
def buildMarketEventsPrompt (targetWeek : CalDate) : String :=
  promptPart1 ++ formatDate targetWeek ++ " to " ++ formatDate (weekEndOf targetWeek)
    ++ promptPart2

/-- `pat` is a prefix of `text`. -/
def leadsWith : List Char → List Char → Bool
  | [], _ => true
  | _ :: _, [] => false
  | p :: ps, c :: cs => p == c && leadsWith ps cs

/-- `pat` occurs contiguously somewhere in `text`. -/
def occursIn : List Char → List Char → Bool
  | pat, [] => leadsWith pat []
  | pat, c :: rest => leadsWith pat (c :: rest) || occursIn pat rest

def strOccursIn (pat text : String) : Bool := occursIn pat.data text.data

/-! ## The week-start default (`AIService.getCurrentWeekStart`) -/

/-- Day of week of an absolute day number (days since 1970-01-01, which was a
Thursday); this is `Date.prototype.getDay`, `0` = Sunday. -/
def jsGetDay (t : Int) : Int := (t + 4) % 7

/-- `getCurrentWeekStart`: `setDate(getDate() - getDay())`, i.e. today moved
back by its day-of-week index. -/
def getCurrentWeekStart (today : Int) : Int := today - jsGetDay today

/-- The target-week default of `generateWeeklyMarketEvents`:
`weekStart || this.getCurrentWeekStart()`. -/
def generateTargetWeek : Option Int → Int → Int
  | some w, _ => w
  | none, today => getCurrentWeekStart today

/-- JS `array.includes(v)` on a list of allowed strings: strict equality,
so a non-string value never matches. -/
def isStrIn (v : Json) (allowed : List String) : Bool :=
  match v with
  | Json.str s => allowed.contains s
  | _ => false

/-! ## Helper lemmas -/

theorem takeThroughLastClose_eq_none {cs : List Char} (h : ']' ∉ cs) :
    takeThroughLastClose cs = none := by
  induction cs with
  | nil => rfl
  | cons c rest ih =>
    have hc : c ≠ ']' := fun e => h (e ▸ List.mem_cons_self c rest)
    have hr : ']' ∉ rest := fun m => h (List.mem_cons_of_mem _ m)
    simp [takeThroughLastClose, ih hr, hc]

theorem extractJsonSpan_eq_none {cs : List Char}
    (h : ¬ ∃ l m r : List Char, cs = l ++ '[' :: (m ++ ']' :: r)) :
    extractJsonSpan cs = none := by
  induction cs with
  | nil => rfl
  | cons c rest ih =>
    by_cases hc : c = '['
    · subst hc
      have hn : ']' ∉ rest := by
        intro hmem
        obtain ⟨m, r, hr⟩ := List.append_of_mem hmem
        exact h ⟨[], m, r, by simp [hr]⟩
      simp [extractJsonSpan, takeThroughLastClose_eq_none hn]
    · have h2 : ¬ ∃ l m r : List Char, rest = l ++ '[' :: (m ++ ']' :: r) := by
        rintro ⟨l, m, r, hr⟩
        exact h ⟨c :: l, m, r, by simp [hr]⟩
      simp [extractJsonSpan, hc, ih h2]

theorem no_span_of_hasSpanB_false {cs : List Char} (h : hasSpanB cs = false) :
    ¬ ∃ l m r : List Char, cs = l ++ '[' :: (m ++ ']' :: r) := by
  rintro ⟨l, m, r, rfl⟩
  induction l with
  | nil =>
    simp [hasSpanB] at h
  | cons x xs ih =>
    simp only [List.cons_append, hasSpanB, Bool.or_eq_false_iff] at h
    exact ih h.2

theorem assocLookup_mem {l : List (String × String)} {k m : String}
    (h : assocLookup l k = some m) : (k, m) ∈ l := by
  induction l with
  | nil => simp [assocLookup] at h
  | cons p rest ih =>
    obtain ⟨k2, v⟩ := p
    by_cases hk : k2 = k
    · subst hk
      simp [assocLookup] at h
      simp [h]
    · simp [assocLookup, hk] at h
      exact List.mem_cons_of_mem _ (ih h)

theorem typeMappings_values_valid : ∀ p ∈ typeMappings, p.2 ∈ validTypes := by decide

theorem normalizeType_cases (ty : Json) :
    (∃ s, normalizeType ty = JsType.str s ∧ s ∈ validTypes)
    ∨ (∃ k, normalizeType ty = JsType.protoMember k ∧ k ∈ objectProtoKeys) := by
  have hEco : ("Economic" : String) ∈ validTypes := by decide
  unfold normalizeType
  cases hg : typeMappingsGet (jsonToKey ty) with
  | some v =>
    dsimp only
    unfold typeMappingsGet at hg
    cases h : assocLookup typeMappings (jsonToKey ty) with
    | some m =>
      rw [h] at hg
      dsimp only at hg
      cases hg
      exact Or.inl ⟨m, rfl, typeMappings_values_valid _ (assocLookup_mem h)⟩
    | none =>
      rw [h] at hg
      dsimp only at hg
      by_cases hp : objectProtoKeys.contains (jsonToKey ty) = true
      · rw [if_pos hp] at hg
        cases hg
        exact Or.inr ⟨jsonToKey ty, rfl, List.mem_of_elem_eq_true hp⟩
      · rw [if_neg hp] at hg
        exact Option.noConfusion hg
  | none =>
    dsimp only
    refine Or.inl ?_
    cases ty with
    | str t =>
      by_cases hc : validTypes.contains t = true
      · exact ⟨t, by dsimp only; rw [if_pos hc], List.mem_of_elem_eq_true hc⟩
      · exact ⟨"Economic", by dsimp only; rw [if_neg hc], hEco⟩
    | null => exact ⟨"Economic", rfl, hEco⟩
    | bool b => exact ⟨"Economic", rfl, hEco⟩
    | num lit => exact ⟨"Economic", rfl, hEco⟩
    | arr xs => exact ⟨"Economic", rfl, hEco⟩
    | obj fs => exact ⟨"Economic", rfl, hEco⟩

theorem validateEvent_invariants {citations : List String} {x : Json}
    {ce : CreateMarketEvent} (h : validateEvent citations x = some ce) :
    eventInvariants ce := by
  cases x with
  | obj fields =>
    simp only [validateEvent] at h
    split at h
    case isTrue hC =>
      split at h
      · next sv mv hsv hmv =>
        split at h
        case isTrue hin =>
          split at h
          · next dv evv tv dsv hdv hevv htv hdsv =>
            cases h
            rw [Bool.and_eq_true] at hin
            refine ⟨normalizeType_cases tv, ?_, ?_⟩
            · exact List.mem_of_elem_eq_true hin.1
            · exact List.mem_of_elem_eq_true hin.2
          · exact Option.noConfusion h
        case isFalse hin => exact Option.noConfusion h
      · exact Option.noConfusion h
    case isFalse hC => exact Option.noConfusion h
  | null => exact Option.noConfusion h
  | bool b => exact Option.noConfusion h
  | num lit => exact Option.noConfusion h
  | str s => exact Option.noConfusion h
  | arr xs => exact Option.noConfusion h

/-- Reduction of `parseAIResponse` once the span has parsed as an array. -/
theorem parseAIResponse_of_arr {response : String} {elements : List Json}
    (citations : List String)
    (h : extractParse response = some (Json.arr elements)) :
    parseAIResponse response citations =
      (if (validateEvents elements citations).length = 0
        then Except.error ParseErr.noValidEvents
        else Except.ok (validateEvents elements citations)) := by
  unfold extractParse at h
  unfold parseAIResponse
  cases hspan : extractJsonSpan response.data with
  | none => rw [hspan] at h; exact Option.noConfusion h
  | some span =>
    rw [hspan] at h
    dsimp only at h
    dsimp only
    rw [h]

/-! ## Claim C3 -/

/-- C3: for every content string with no `[` followed later by `]`,
`parseAIResponse` fails with the "no JSON array found" error (and hence
returns no candidates). -/
theorem claim_C3_no_span_parse_error (response : String) (citations : List String)
    (h : ¬ ∃ l m r : List Char, response.data = l ++ '[' :: (m ++ ']' :: r)) :
    parseAIResponse response citations = Except.error ParseErr.noArrayFound := by
  unfold parseAIResponse
  rw [extractJsonSpan_eq_none h]

/-- Witness for C3 at the concrete input `"]abc["` (its only `]` precedes
its only `[`). -/
theorem claim_C3_witness :
    parseAIResponse "]abc[" [] = Except.error ParseErr.noArrayFound :=
  claim_C3_no_span_parse_error "]abc[" [] (no_span_of_hasSpanB_false (by decide))

/-! ## Claim C2 -/

set_option maxRecDepth 10000

/-- An element with every field valid and `type = "toString"`. -/
def protoFields : List (String × Json) :=
  [("date", Json.str "D"), ("event", Json.str "E"), ("type", Json.str "toString"),
   ("description", Json.str "x"), ("significance", Json.str "High"),
   ("marketSentiment", Json.str "Mixed")]

/-- Content carrying only that element. -/
def protoContent : String :=
  "[\x7b\"date\":\"D\",\"event\":\"E\",\"type\":\"toString\",\"description\":\"x\",\"significance\":\"High\",\"marketSentiment\":\"Mixed\"\x7d]"

/-- The candidate that element normalizes to: its type is the inherited
`Object.prototype.toString`, not a canonical value. -/
def protoCE : CreateMarketEvent :=
  { date := Json.str "D", event := Json.str "E",
    type := JsType.protoMember "toString", description := Json.str "x",
    significance := "High", market_sentiment := "Mixed", citations := none }

/-- C2 counterexample: the content `"[]"` contains a syntactically valid JSON
array (the empty one), yet `parseAIResponse` fails with a `ParseError` instead
of returning a (length `≤ 0`) sequence of candidates; and on an array whose
element has `type = "toString"` the call succeeds but the returned element's
type is the inherited `Object.prototype.toString`, outside the seven-value
canonical set. -/
theorem claim_C2_counterexample :
    parseJson "[]" = some (Json.arr []) ∧ extractParse "[]" = some (Json.arr [])
    ∧ parseAIResponse "[]" [] = Except.error ParseErr.noValidEvents
    ∧ parseAIResponse protoContent [] = Except.ok [protoCE]
    ∧ protoCE.type = JsType.protoMember "toString"
    ∧ protoCE.type ∉ validTypes.map JsType.str :=
  ⟨rfl, rfl, rfl, rfl, rfl, by decide⟩

/-- C2 (amended): for every content string whose extracted `[...]` span parses
as a JSON array, whenever `parseAIResponse` returns successfully the returned
sequence has length at most the array's length and every returned candidate
has a `significance` in \x7bHigh, Medium, Low\x7d, a `market_sentiment` in
\x7bBullish, Bearish, Neutral, Mixed\x7d, and a `type` that is either one of
the seven canonical values or an inherited `Object.prototype` member (the
synonym-table read walks the prototype chain, so e.g. `type = "toString"`
emits the inherited function).  The claim's unconditional "returns a
sequence" fails — when every element is rejected, e.g. the empty array, a
`ParseError` is raised — and its unconditional canonical-type invariant
fails at `type = "toString"`. -/
theorem claim_C2_normalize_bounds (response : String) (citations : List String)
    (elements : List Json) (out : List CreateMarketEvent)
    (hparse : extractParse response = some (Json.arr elements))
    (hok : parseAIResponse response citations = Except.ok out) :
    out.length ≤ elements.length ∧ ∀ ce ∈ out, eventInvariants ce := by
  rw [parseAIResponse_of_arr citations hparse] at hok
  by_cases hz : (validateEvents elements citations).length = 0
  · rw [if_pos hz] at hok
    exact Except.noConfusion hok
  · rw [if_neg hz] at hok
    cases hok
    constructor
    · exact List.length_filterMap_le _ _
    · intro ce hce
      obtain ⟨a, _, hva⟩ := List.mem_filterMap.mp hce
      exact validateEvent_invariants hva

/-- The end-to-end content of the spec's scenario. -/
def demoContent : String :=
  "Here is the data: [\x7b\"date\":\"December 1 2025\",\"event\":\"ISM PMI\",\"type\":\"Economic\",\"description\":\"...\",\"significance\":\"High\",\"marketSentiment\":\"Mixed\"\x7d]"

/-- The array elements the demo content parses to. -/
def demoElems : List Json :=
  [Json.obj [("date", Json.str "December 1 2025"), ("event", Json.str "ISM PMI"),
    ("type", Json.str "Economic"), ("description", Json.str "..."),
    ("significance", Json.str "High"), ("marketSentiment", Json.str "Mixed")]]

/-- Witness for C2 at the spec's end-to-end scenario content. -/
theorem claim_C2_witness :
    (validateEvents demoElems ["https://example.com"]).length ≤ demoElems.length
    ∧ ∀ ce ∈ validateEvents demoElems ["https://example.com"], eventInvariants ce :=
  claim_C2_normalize_bounds demoContent ["https://example.com"] demoElems
    (validateEvents demoElems ["https://example.com"]) (by rfl) (by rfl)

/-! ## Claim C6 -/

/-- C6: once the span parses as an array, `parseAIResponse` fails with the
"no valid events" error iff every element is rejected; when at least one
survives, the surviving subset is returned as a success. -/
theorem claim_C6_error_iff_all_rejected (response : String) (citations : List String)
    (elements : List Json)
    (hparse : extractParse response = some (Json.arr elements)) :
    (parseAIResponse response citations = Except.error ParseErr.noValidEvents
        ↔ ∀ x ∈ elements, validateEvent citations x = none)
    ∧ ((∃ x ∈ elements, validateEvent citations x ≠ none)
        → parseAIResponse response citations
            = Except.ok (validateEvents elements citations)) := by
  rw [parseAIResponse_of_arr citations hparse]
  have hnil : (validateEvents elements citations).length = 0
      ↔ ∀ x ∈ elements, validateEvent citations x = none := by
    rw [List.length_eq_zero]
    exact List.filterMap_eq_nil_iff
  constructor
  · constructor
    · intro he
      by_cases hz : (validateEvents elements citations).length = 0
      · exact hnil.mp hz
      · rw [if_neg hz] at he
        exact Except.noConfusion he
    · intro hall
      rw [if_pos (hnil.mpr hall)]
  · rintro ⟨x, hx, hnx⟩
    by_cases hz : (validateEvents elements citations).length = 0
    · exact absurd (hnil.mp hz x hx) hnx
    · rw [if_neg hz]

/-- Witness for C6 at the concrete content `"[1]"` (one element, rejected). -/
theorem claim_C6_witness :
    (parseAIResponse "[1]" [] = Except.error ParseErr.noValidEvents
        ↔ ∀ x ∈ [Json.num "1"], validateEvent [] x = none)
    ∧ ((∃ x ∈ [Json.num "1"], validateEvent [] x ≠ none)
        → parseAIResponse "[1]" [] = Except.ok (validateEvents [Json.num "1"] [])) :=
  claim_C6_error_iff_all_rejected "[1]" [] [Json.num "1"] (by rfl)

/-! ## Claim C4 -/

/-- C4 counterexample: at the type string `"toString"` — not a synonym key
and not canonical — the property read finds the truthy inherited
`Object.prototype.toString`, so the code substitutes that member as the type
instead of the fallback `"Economic"`, and emits the element carrying it. -/
theorem claim_C4_counterexample :
    assocLookup typeMappings "toString" = none
    ∧ validTypes.contains "toString" = false
    ∧ normalizeType (Json.str "toString") = JsType.protoMember "toString"
    ∧ normalizeType (Json.str "toString") ≠ JsType.str "Economic"
    ∧ validateEvent [] (Json.obj protoFields) = some protoCE :=
  ⟨rfl, rfl, rfl, by decide, rfl⟩

/-- C4 (amended): the `type` field normalization — a synonym-table own key
maps to its canonical value; otherwise a key of `Object.prototype` (such as
`"toString"`, `"constructor"`, `"__proto__"`) finds the truthy inherited
member, which is substituted as the type instead of `"Economic"`; otherwise
an already-canonical value is kept; and anything else falls back to
`"Economic"`.  An element whose other fields are valid is emitted whatever
its (truthy) `type` value is, never rejected for it. -/
theorem claim_C4_type_normalization :
    (∀ t m, assocLookup typeMappings t = some m →
        normalizeType (Json.str t) = JsType.str m)
    ∧ (∀ t, assocLookup typeMappings t = none → objectProtoKeys.contains t = true →
        normalizeType (Json.str t) = JsType.protoMember t)
    ∧ (∀ t, assocLookup typeMappings t = none → objectProtoKeys.contains t = false →
        validTypes.contains t = true → normalizeType (Json.str t) = JsType.str t)
    ∧ (∀ t, assocLookup typeMappings t = none → objectProtoKeys.contains t = false →
        validTypes.contains t = false → normalizeType (Json.str t) = JsType.str "Economic")
    ∧ (∀ (fields : List (String × Json)) (citations : List String)
        (dv evv tv dsv : Json) (sv mv : String),
        jGet fields "date" = some dv → truthy (some dv) = true →
        jGet fields "event" = some evv → truthy (some evv) = true →
        jGet fields "type" = some tv → truthy (some tv) = true →
        jGet fields "description" = some dsv → truthy (some dsv) = true →
        jGet fields "significance" = some (Json.str sv) → sv ∈ validSignificance →
        jGet fields "marketSentiment" = some (Json.str mv) → mv ∈ validSentiment →
        validateEvent citations (Json.obj fields) = some
          { date := dv, event := evv, type := normalizeType tv, description := dsv,
            significance := sv, market_sentiment := mv,
            citations := if citations.length > 0 then some citations else none }) := by
  have hk : ∀ t : String, jsonToKey (Json.str t) = t := fun t => rfl
  refine ⟨?_, ?_, ?_, ?_, ?_⟩
  · intro t m h
    unfold normalizeType typeMappingsGet
    rw [hk, h]
  · intro t h hp
    unfold normalizeType typeMappingsGet
    rw [hk, h]
    dsimp only
    rw [if_pos hp]
  · intro t h hp hc
    unfold normalizeType typeMappingsGet
    rw [hk, h]
    dsimp only
    rw [if_neg (fun hcc => by rw [hcc] at hp; exact Bool.noConfusion hp)]
    dsimp only
    rw [if_pos hc]
  · intro t h hp hc
    unfold normalizeType typeMappingsGet
    rw [hk, h]
    dsimp only
    rw [if_neg (fun hcc => by rw [hcc] at hp; exact Bool.noConfusion hp)]
    dsimp only
    rw [if_neg (fun hcc => by rw [hcc] at hc; exact Bool.noConfusion hc)]
  · intro fields citations dv evv tv dsv sv mv hdv htdv hevv htevv htv httv hdsv htdsv
      hsv hsvmem hmv hmvmem
    have hsvt : truthy (some (Json.str sv)) = true := by
      fin_cases hsvmem <;> rfl
    have hmvt : truthy (some (Json.str mv)) = true := by
      fin_cases hmvmem <;> rfl
    have hsvc : validSignificance.contains sv = true := List.elem_eq_true_of_mem hsvmem
    have hmvc : validSentiment.contains mv = true := List.elem_eq_true_of_mem hmvmem
    simp only [validateEvent, hdv, hevv, htv, hdsv, hsv, hmv, htdv, htevv, httv, htdsv,
      hsvt, hmvt, hsvc, hmvc, Bool.and_self, if_pos]

/-- The concrete element used by the C4 witness: valid everywhere, with an
unrecognized (non-synonym, non-prototype, non-canonical) `type`. -/
def demoFields : List (String × Json) :=
  [("date", Json.str "December 1 2025"), ("event", Json.str "E"),
   ("type", Json.str "Weather Event"), ("description", Json.str "x"),
   ("significance", Json.str "High"), ("marketSentiment", Json.str "Mixed")]

/-- Witness for C4: `"FOMC"` maps to `"Fed"`, `"toString"` is substituted by
the inherited prototype member, `"Fed"` is kept, an unknown `"Weather Event"`
falls back to `"Economic"`, and the element carrying it is still emitted. -/
theorem claim_C4_witness :
    normalizeType (Json.str "FOMC") = JsType.str "Fed"
    ∧ normalizeType (Json.str "toString") = JsType.protoMember "toString"
    ∧ normalizeType (Json.str "Fed") = JsType.str "Fed"
    ∧ normalizeType (Json.str "Weather Event") = JsType.str "Economic"
    ∧ validateEvent [] (Json.obj demoFields) = some
        { date := Json.str "December 1 2025", event := Json.str "E",
          type := normalizeType (Json.str "Weather Event"), description := Json.str "x",
          significance := "High", market_sentiment := "Mixed",
          citations := if ([] : List String).length > 0 then some [] else none } := by
  obtain ⟨h1, h2, h3, h4, h5⟩ := claim_C4_type_normalization
  exact ⟨h1 "FOMC" "Fed" rfl, h2 "toString" rfl rfl, h3 "Fed" rfl rfl rfl,
    h4 "Weather Event" rfl rfl rfl,
    h5 demoFields [] _ _ _ _ _ _ rfl rfl rfl rfl rfl rfl rfl rfl rfl (by decide) rfl
      (by decide)⟩

/-! ## Claim C5 -/

/-- `isStrIn` lifted over a possibly-missing field. -/
def isStrInOpt (o : Option Json) (allowed : List String) : Bool :=
  match o with
  | some v => isStrIn v allowed
  | none => false

theorem validateEvent_none_of_enum_bad {fields : List (String × Json)}
    {citations : List String}
    (h : isStrInOpt (jGet fields "significance") validSignificance = false
       ∨ isStrInOpt (jGet fields "marketSentiment") validSentiment = false) :
    validateEvent citations (Json.obj fields) = none := by
  simp only [validateEvent]
  split
  · split
    · next sv mv hsv hmv =>
      rcases h with hb | hb
      · rw [hsv] at hb
        simp only [isStrInOpt, isStrIn] at hb
        exact if_neg (fun hcc => by
          rw [Bool.and_eq_true] at hcc
          rw [hcc.1] at hb
          exact Bool.noConfusion hb)
      · rw [hmv] at hb
        simp only [isStrInOpt, isStrIn] at hb
        exact if_neg (fun hcc => by
          rw [Bool.and_eq_true] at hcc
          rw [hcc.2] at hb
          exact Bool.noConfusion hb)
    · rfl
  · rfl

theorem validateEvent_none_of_field_falsy {fields : List (String × Json)}
    {citations : List String} {name : String}
    (hname : name ∈ (["date", "event", "type", "description", "significance",
        "marketSentiment"] : List String))
    (hbad : truthy (jGet fields name) = false) :
    validateEvent citations (Json.obj fields) = none := by
  fin_cases hname <;> simp [validateEvent, hbad]

/-- C5: an array element missing any of the six required fields (or carrying
an empty/falsy value there), or whose `significance`/`marketSentiment` is
present but not an exact member of the respective enum, is skipped, and the
elements around it are processed as if it were absent. -/
theorem claim_C5_rejected_element_skipped
    (fields : List (String × Json)) (citations : List String) (pre post : List Json)
    (h :
      (∃ name ∈ (["date", "event", "type", "description", "significance",
          "marketSentiment"] : List String),
          jGet fields name = none ∨ jGet fields name = some (Json.str ""))
      ∨ (∃ v, jGet fields "significance" = some v ∧ isStrIn v validSignificance = false)
      ∨ (∃ v, jGet fields "marketSentiment" = some v ∧ isStrIn v validSentiment = false)) :
    validateEvent citations (Json.obj fields) = none
    ∧ validateEvents (pre ++ Json.obj fields :: post) citations
        = validateEvents pre citations ++ validateEvents post citations := by
  have hnone : validateEvent citations (Json.obj fields) = none := by
    rcases h with ⟨name, hname, hbad⟩ | ⟨v, hv, hbad⟩ | ⟨v, hv, hbad⟩
    · refine validateEvent_none_of_field_falsy hname ?_
      rcases hbad with hb | hb <;> simp [truthy, hb]
    · exact validateEvent_none_of_enum_bad (Or.inl (by simp [isStrInOpt, hv, hbad]))
    · exact validateEvent_none_of_enum_bad (Or.inr (by simp [isStrInOpt, hv, hbad]))
  refine ⟨hnone, ?_⟩
  simp [validateEvents, List.filterMap_append, List.filterMap_cons, hnone]

/-- A fully valid element, used to show processing continues around a
rejected one. -/
def goodElem : Json :=
  Json.obj [("date", Json.str "December 2 2025"), ("event", Json.str "CPI"),
    ("type", Json.str "Economic"), ("description", Json.str "y"),
    ("significance", Json.str "Medium"), ("marketSentiment", Json.str "Neutral")]

/-- The C5 witness element: `significance` missing entirely. -/
def badFields : List (String × Json) :=
  [("date", Json.str "D"), ("event", Json.str "E"), ("type", Json.str "Economic"),
   ("description", Json.str "x"), ("marketSentiment", Json.str "Mixed")]

/-- Witness for C5: the element missing `significance` is excluded while the
valid elements before and after it survive. -/
theorem claim_C5_witness :
    validateEvent [] (Json.obj badFields) = none
    ∧ validateEvents ([goodElem] ++ Json.obj badFields :: [goodElem]) []
        = validateEvents [goodElem] [] ++ validateEvents [goodElem] [] :=
  claim_C5_rejected_element_skipped badFields [] [goodElem] [goodElem]
    (Or.inl ⟨"significance", by decide, Or.inl rfl⟩)

/-! ## Claim C1 -/

/-- First candidate of the in-batch duplicate pair. -/
def ceA : CreateMarketEvent :=
  { date := Json.str "December 1 2025", event := Json.str "US ISM Manufacturing PMI",
    type := JsType.str "Economic", description := Json.str "first description",
    significance := "High", market_sentiment := "Mixed", citations := none }

/-- Second candidate: same `(event, date)` pair, different `description`. -/
def ceB : CreateMarketEvent :=
  { ceA with description := Json.str "second description" }

/-- C1 counterexample: a batch with two candidates sharing `(event, date)`
but differing in `description`, ingested into an empty store, creates TWO
persisted records and skips none — not one created and one skipped as the
claim states. -/
theorem claim_C1_counterexample :
    Json.beq ceA.event ceB.event = true
    ∧ Json.beq ceA.date ceB.date = true
    ∧ Json.beq ceA.description ceB.description = false
    ∧ (createEvents [] [ceA, ceB]).1.created = [ceA, ceB]
    ∧ (createEvents [] [ceA, ceB]).1.skipped = 0
    ∧ (createEvents [] [ceA, ceB]).2 = [ceA, ceB] :=
  ⟨rfl, rfl, rfl, rfl, rfl, rfl⟩

/-- C1 (amended): `createEvents` does not deduplicate within a batch — the
existence check consults only the pre-call store, so when neither of two
candidates with the same `(event, date)` pair matches a stored row, both are
staged, both are inserted, and neither is counted as skipped. -/
theorem claim_C1_inbatch_duplicates_both_inserted
    (rows : List CreateMarketEvent) (e1 e2 : CreateMarketEvent)
    (_hev : Json.beq e1.event e2.event = true) (_hdt : Json.beq e1.date e2.date = true)
    (h1 : rows.filter (fun r => matchesPair r e1) = [])
    (h2 : rows.filter (fun r => matchesPair r e2) = []) :
    (createEvents rows [e1, e2]).1.created = [e1, e2]
    ∧ (createEvents rows [e1, e2]).1.skipped = 0
    ∧ (createEvents rows [e1, e2]).2 = rows ++ [e1, e2] := by
  have hloop : createEventsLoop (storeQuery rows) [e1, e2] = ([e1, e2], 0) := by
    simp [createEventsLoop, storeQuery, h1, h2, findExistingEvent]
  refine ⟨?_, ?_, ?_⟩ <;> simp [createEvents, hloop]

/-- Witness for C1 (amended) at the concrete duplicate pair and the empty
store. -/
theorem claim_C1_witness :
    (createEvents [] [ceA, ceB]).1.created = [ceA, ceB]
    ∧ (createEvents [] [ceA, ceB]).1.skipped = 0
    ∧ (createEvents [] [ceA, ceB]).2 = [] ++ [ceA, ceB] :=
  claim_C1_inbatch_duplicates_both_inserted [] ceA ceB rfl rfl rfl rfl

/-! ## Claim C7 -/

/-- C7: when the existence check for a candidate errors, the candidate is
treated as not found (`findExistingEvent` returns `null`), it is still staged
for insertion, and the candidates before and after it in the batch are
classified exactly as they would be on their own. -/
theorem claim_C7_check_error_fails_open
    (query : CreateMarketEvent → QueryResult)
    (pre post : List CreateMarketEvent) (e : CreateMarketEvent)
    (herr : query e = QueryResult.err) :
    findExistingEvent (query e) = none
    ∧ createEventsLoop query (pre ++ e :: post)
        = ((createEventsLoop query pre).1 ++ e :: (createEventsLoop query post).1,
           (createEventsLoop query pre).2 + (createEventsLoop query post).2) := by
  constructor
  · rw [herr]
    rfl
  · induction pre with
    | nil => simp [createEventsLoop, herr, findExistingEvent]
    | cons p ps ih =>
      cases hq : findExistingEvent (query p) with
      | some r =>
        simp only [List.cons_append, createEventsLoop, List.append_eq, hq, ih, Prod.ext_iff]
        refine ⟨by simp, by omega⟩
      | none =>
        simp only [List.cons_append, createEventsLoop, List.append_eq, hq, ih, Prod.ext_iff]

/-- Witness for C7: a query that always errors leaves the batch fully staged
in order, with nothing skipped. -/
theorem claim_C7_witness :
    findExistingEvent ((fun _ => QueryResult.err) ceA) = none
    ∧ createEventsLoop (fun _ => QueryResult.err) ([ceB] ++ ceA :: [ceB])
        = ((createEventsLoop (fun _ => QueryResult.err) [ceB]).1
            ++ ceA :: (createEventsLoop (fun _ => QueryResult.err) [ceB]).1,
           (createEventsLoop (fun _ => QueryResult.err) [ceB]).2
            + (createEventsLoop (fun _ => QueryResult.err) [ceB]).2) :=
  claim_C7_check_error_fails_open (fun _ => QueryResult.err) [ceB] [ceB] ceA rfl

/-! ## Claim C8 -/

/-- C8: re-ingesting a batch against a store that already holds the matching
record (exactly one per candidate — the store invariant forbids duplicate
`(event, date)` pairs) creates nothing, skips every candidate, and leaves the
store unchanged. -/
theorem claim_C8_repeat_ingest_idempotent
    (rows es : List CreateMarketEvent)
    (h : ∀ e ∈ es, (rows.filter (fun r => matchesPair r e)).length = 1) :
    (createEvents rows es).1.created = []
    ∧ (createEvents rows es).1.skipped = es.length
    ∧ (createEvents rows es).2 = rows := by
  have hloop : createEventsLoop (storeQuery rows) es = ([], es.length) := by
    induction es with
    | nil => rfl
    | cons e rest ih =>
      obtain ⟨r, hr⟩ := List.length_eq_one.mp (h e (List.mem_cons_self e rest))
      have ihr := ih (fun x hx => h x (List.mem_cons_of_mem _ hx))
      simp [createEventsLoop, storeQuery, hr, findExistingEvent, ihr]
  refine ⟨?_, ?_, ?_⟩ <;> simp [createEvents, hloop]

/-- Witness for C8: re-ingesting `[ceA]` against a store holding exactly that
record skips it and creates nothing. -/
theorem claim_C8_witness :
    (∀ e ∈ [ceA], (([ceA]).filter (fun r => matchesPair r e)).length = 1)
    ∧ (createEvents [ceA] [ceA]).1.created = []
    ∧ (createEvents [ceA] [ceA]).1.skipped = [ceA].length
    ∧ (createEvents [ceA] [ceA]).2 = [ceA] := by
  have h : ∀ e ∈ [ceA], (([ceA]).filter (fun r => matchesPair r e)).length = 1 := by
    intro e he
    rw [List.mem_singleton] at he
    subst he
    rfl
  exact ⟨h, claim_C8_repeat_ingest_idempotent [ceA] [ceA] h⟩

/-! ## Claim C9 -/

theorem strData_append (s t : String) : (s ++ t).data = s.data ++ t.data := by
  cases s
  cases t
  rfl

theorem leadsWith_append (p r : List Char) : leadsWith p (p ++ r) = true := by
  induction p with
  | nil => rfl
  | cons c cs ih => simp [leadsWith, ih]

theorem occursIn_of_leadsWith {p t : List Char} (h : leadsWith p t = true) :
    occursIn p t = true := by
  cases t with
  | nil => exact h
  | cons c rest => simp [occursIn, h]

theorem occursIn_append_head (p r : List Char) : occursIn p (p ++ r) = true :=
  occursIn_of_leadsWith (leadsWith_append p r)

theorem occursIn_append_left {p t : List Char} (u : List Char)
    (h : occursIn p t = true) : occursIn p (u ++ t) = true := by
  induction u with
  | nil => exact h
  | cons c cs ih => simp [occursIn, ih]

/-- Occurrence in the tail half of a concatenation. -/
theorem strOccursIn_right {pat tail : String} (head : String)
    (h : occursIn pat.data tail.data = true) :
    strOccursIn pat (head ++ tail) = true := by
  unfold strOccursIn
  rw [strData_append]
  exact occursIn_append_left _ h

theorem daysBeforeMonth_succ {y m : Nat} (h1 : 1 ≤ m) (h2 : m ≤ 11) :
    daysBeforeMonth y (m + 1) = daysBeforeMonth y m + daysInMonth y m := by
  interval_cases m <;> cases hl : isLeapYear y <;>
    simp [daysBeforeMonth, daysInMonth, hl]

/-- `weekEndOf` really is six days later, as an absolute day count. -/
theorem rataDie_weekEndOf {d : CalDate} (hd : validDate d) :
    rataDie (weekEndOf d) = rataDie d + 6 := by
  obtain ⟨hm1, hm2, hd1, hd2⟩ := hd
  unfold weekEndOf
  by_cases hov : d.day + 6 ≤ daysInMonth d.year d.month
  · rw [if_pos hov]
    simp only [rataDie]
    omega
  · rw [if_neg hov]
    by_cases h12 : d.month = 12
    · rw [if_pos h12]
      have hdy : daysBeforeYear (d.year + 1)
          = daysBeforeYear d.year + daysInYear d.year := rfl
      rw [h12] at hov hd2
      simp only [rataDie, hdy, h12]
      cases hl : isLeapYear d.year <;>
        simp [daysBeforeMonth, daysInMonth, daysInYear, hl] at hov hd2 ⊢ <;>
        omega
    · rw [if_neg h12]
      have hsucc := daysBeforeMonth_succ (y := d.year) hm1 (by omega)
      simp only [rataDie, hsucc]
      omega

theorem strAppend_assoc (a b c : String) : a ++ b ++ c = a ++ (b ++ c) := by
  cases a
  cases b
  cases c
  show String.mk _ = String.mk _
  rw [List.append_assoc]

/-- A pattern spliced between two halves occurs in the concatenation. -/
theorem strOccursIn_mid (head pat tail : String) :
    strOccursIn pat (head ++ pat ++ tail) = true := by
  unfold strOccursIn
  rw [strData_append, strData_append, List.append_assoc]
  exact occursIn_append_left _ (occursIn_append_head _ _)

/-- C9: for every valid `weekStart`, the produced prompt states the date range
from `weekStart` to `weekStart` plus six days (in the en-US long form), lists
all seven canonical event categories, names all six fields of the JSON-array
output contract, and requests 10-15 events.  (The builder is a plain function
of `weekStart`, so purity/determinism hold by construction.) -/
theorem claim_C9_prompt_content (d : CalDate) (hd : validDate d) :
    rataDie (weekEndOf d) = rataDie d + 6
    ∧ strOccursIn (formatDate d ++ " to " ++ formatDate (weekEndOf d))
        (buildMarketEventsPrompt d) = true
    ∧ (∀ t ∈ validTypes,
        strOccursIn ("\"" ++ t ++ "\"") (buildMarketEventsPrompt d) = true)
    ∧ strOccursIn "\"date\":" (buildMarketEventsPrompt d) = true
    ∧ strOccursIn "\"event\":" (buildMarketEventsPrompt d) = true
    ∧ strOccursIn "\"type\":" (buildMarketEventsPrompt d) = true
    ∧ strOccursIn "\"description\":" (buildMarketEventsPrompt d) = true
    ∧ strOccursIn "\"significance\":" (buildMarketEventsPrompt d) = true
    ∧ strOccursIn "\"marketSentiment\":" (buildMarketEventsPrompt d) = true
    ∧ strOccursIn "valid JSON array" (buildMarketEventsPrompt d) = true
    ∧ strOccursIn "Generate 10-15 events" (buildMarketEventsPrompt d) = true := by
  refine ⟨rataDie_weekEndOf hd, ?_, ?_, ?_, ?_, ?_, ?_, ?_, ?_, ?_, ?_⟩
  · unfold buildMarketEventsPrompt
    rw [strAppend_assoc promptPart1 (formatDate d) " to ",
      strAppend_assoc promptPart1 (formatDate d ++ " to ") (formatDate (weekEndOf d))]
    exact strOccursIn_mid promptPart1 _ promptPart2
  · intro t ht
    fin_cases ht <;>
      · unfold buildMarketEventsPrompt
        exact strOccursIn_right _ (by rfl)
  all_goals
    unfold buildMarketEventsPrompt
    exact strOccursIn_right _ (by rfl)

/-- The week start used by the C9 witness. -/
def d0 : CalDate := { year := 2025, month := 12, day := 1 }

/-- Witness for C9 at the concrete week start December 1, 2025. -/
theorem claim_C9_witness :
    rataDie (weekEndOf d0) = rataDie d0 + 6
    ∧ strOccursIn (formatDate d0 ++ " to " ++ formatDate (weekEndOf d0))
        (buildMarketEventsPrompt d0) = true
    ∧ (∀ t ∈ validTypes,
        strOccursIn ("\"" ++ t ++ "\"") (buildMarketEventsPrompt d0) = true)
    ∧ strOccursIn "\"date\":" (buildMarketEventsPrompt d0) = true
    ∧ strOccursIn "\"event\":" (buildMarketEventsPrompt d0) = true
    ∧ strOccursIn "\"type\":" (buildMarketEventsPrompt d0) = true
    ∧ strOccursIn "\"description\":" (buildMarketEventsPrompt d0) = true
    ∧ strOccursIn "\"significance\":" (buildMarketEventsPrompt d0) = true
    ∧ strOccursIn "\"marketSentiment\":" (buildMarketEventsPrompt d0) = true
    ∧ strOccursIn "valid JSON array" (buildMarketEventsPrompt d0) = true
    ∧ strOccursIn "Generate 10-15 events" (buildMarketEventsPrompt d0) = true :=
  claim_C9_prompt_content d0 (by unfold validDate; decide)

/-! ## Claim C10 -/

/-- C10: when no explicit `weekStart` is given, the target week start is
today's day number minus today's day-of-week index — the most recent Sunday
on or before today (weeks are Sunday-based). -/
theorem claim_C10_default_week_start_sunday (today : Int) :
    generateTargetWeek none today = today - jsGetDay today
    ∧ jsGetDay (generateTargetWeek none today) = 0
    ∧ generateTargetWeek none today ≤ today
    ∧ today < generateTargetWeek none today + 7
    ∧ ∀ s : Int, jsGetDay s = 0 → s ≤ today → s ≤ generateTargetWeek none today := by
  refine ⟨rfl, ?_, ?_, ?_, ?_⟩
  · simp only [generateTargetWeek, getCurrentWeekStart, jsGetDay]
    omega
  · simp only [generateTargetWeek, getCurrentWeekStart, jsGetDay]
    omega
  · simp only [generateTargetWeek, getCurrentWeekStart, jsGetDay]
    omega
  · intro s h1 h2
    simp only [generateTargetWeek, getCurrentWeekStart, jsGetDay] at h1 ⊢
    omega

/-- Witness for C10 at day number 12 (a Friday: `(12 + 4) % 7 = 2`...
concretely, the conclusion instantiated at `today = 12`). -/
theorem claim_C10_witness :
    generateTargetWeek none 12 = 12 - jsGetDay 12
    ∧ jsGetDay (generateTargetWeek none 12) = 0
    ∧ generateTargetWeek none 12 ≤ 12
    ∧ (12 : Int) < generateTargetWeek none 12 + 7
    ∧ ∀ s : Int, jsGetDay s = 0 → s ≤ 12 → s ≤ generateTargetWeek none 12 :=
  claim_C10_default_week_start_sunday 12
